import Mathlib

/-!
Shallow embedding of the training-orchestration code of the Wudao-Model
repository and proofs of the specification claims about it.

Embedded source files:
* src/Transformer-XL/pretrain_gpt2.py (attention mask construction,
  forward_step, backward_step, train_step, train, evaluate,
  get_train_val_test_data vocabulary padding, main's final checkpoint),
* src/Transformer-XL/generate_samples.py (prepare_tokenizer vocabulary
  padding, sample_sequence),
* src/CogView/data_utils/datasets.py (pad_to_len, process_fn).

Tensors carrying hidden states, logits and batches are treated as abstract
types; the numeric values that the claims speak about (losses, masks,
clipping thresholds) are modelled as rationals, machine integers as Nat.
Stateful loops are modelled as explicit state-passing functions; each
loop in the source runs a statically bounded number of iterations
(the `train` loop increments `args.iteration` once per pass and stops at
`args.train_iters`; the sampling loop increments `counter` once per pass
and stops at `out_seq_length - org_context_length`; the vocabulary padding
loop adds at most `multiple - 1`), so the embeddings recurse on exactly
that bound and lemmas below establish that the bound is never hit early
except through the loop's own stopping condition.
-/

namespace Wudao

/-! ### Transformer-XL attention mask

pretrain_gpt2.py lines 213-216 (identical code in generate_samples.py
lines 100-103): in the `transformer_xl` branch with `attention_mask=None`
the code builds `torch.ones((1, seq_length, seq_length + mem_length))` and
applies `torch.tril(torch.triu(mask, 1 - seq_length + mem_length), mem_length)`.
Matrices are embedded as entry functions `Nat → Nat → ℚ`; the leading
batch dimension of size 1 and the later `unsqueeze(1)` only add singleton
axes and are dropped. -/

/-- Entrywise model of `torch.triu(A, d)`: keeps the entries on or above
the d-th diagonal, i.e. those with `j - i ≥ d`, and zeroes the rest. -/
def triuM (d : Int) (A : Nat → Nat → ℚ) : Nat → Nat → ℚ :=
  fun i j => if (i : Int) + d ≤ (j : Int) then A i j else 0

/-- Entrywise model of `torch.tril(A, d)`: keeps the entries on or below
the d-th diagonal, i.e. those with `j - i ≤ d`, and zeroes the rest. -/
def trilM (d : Int) (A : Nat → Nat → ℚ) : Nat → Nat → ℚ :=
  fun i j => if (j : Int) ≤ (i : Int) + d then A i j else 0

/-- The transformer-xl attention mask of get_masks_and_position_ids:
`tril(triu(ones(seq, seq + mem), 1 - seq + mem), mem)`, as a function of
the query index `i < seq` and the key index `j < seq + mem` (keys
`0 ≤ j < mem` are the carried memory positions, key `mem + t` is segment
position `t`). -/
def xlAttentionMask (seq mem : Nat) : Nat → Nat → ℚ :=
  trilM (mem : Int) (triuM (1 - (seq : Int) + (mem : Int)) (fun _ _ => 1))

/-- Modelled from the spec words of claim C2, for comparison with
`xlAttentionMask`: a mask in which query `i` attends to every carried
memory position and every segment position up to its own (all keys
`j ≤ mem + i`) and to no later key. -/
def xlClaimedMask (_seq mem : Nat) : Nat → Nat → ℚ :=
  fun i j => if j ≤ mem + i then 1 else 0

/-! ### Vocabulary padding

pretrain_gpt2.py get_train_val_test_data lines 669-677 and
generate_samples.py prepare_tokenizer lines 381-389 both run
`after = before; while after % multiple != 0: after += 1`, but with
different values of `multiple`: the pretraining script uses
`args.make_vocab_size_divisible_by * mpu.get_model_parallel_world_size()`,
the generation script uses `args.make_vocab_size_divisible_by` alone.
The loop adds at most `multiple - 1`, so `multiple` is enough fuel; the
divisibility result proved below shows the fuel never runs out. -/

/-- The `while after % multiple != 0: after += 1` loop with explicit fuel. -/
def pad_vocab_loop (multiple : Nat) : Nat → Nat → Nat
  | 0, a => a
  | fuel + 1, a => if a % multiple ≠ 0 then pad_vocab_loop multiple fuel (a + 1) else a

/-- Padding a vocabulary of `before` tokens to a multiple of `multiple`. -/
def pad_vocab (before multiple : Nat) : Nat :=
  pad_vocab_loop multiple multiple before

/-- Padded vocabulary size computed (on model-parallel rank 0, then
broadcast unchanged) by get_train_val_test_data. -/
def padded_vocab_pretrain (num_tokens divisible mpWorldSize : Nat) : Nat :=
  pad_vocab num_tokens (divisible * mpWorldSize)

/-- Padded vocabulary size computed by generate_samples.prepare_tokenizer:
the multiple is `args.make_vocab_size_divisible_by` alone. -/
def padded_vocab_generate (num_tokens divisible : Nat) : Nat :=
  pad_vocab num_tokens divisible

/-! ### Loss mask and masked mean loss

forward_step (pretrain_gpt2.py lines 342-347) computes
`loss = sum(losses * loss_mask) / loss_mask.sum()`; in the
non-transformer-xl branch get_masks_and_position_ids (line 236) first
executes `loss_mask[data == eod_token] = 0.0` on a mask of ones.
One-dimensional float tensors are embedded as `List ℚ`. -/

/-- `loss_mask[data == eod_token] = 0.0` applied to a mask aligned with
`data`. -/
def update_loss_mask (eod : Nat) (data : List Nat) (lossMask : List ℚ) : List ℚ :=
  List.zipWith (fun d m => if d = eod then 0 else m) data lossMask

/-- The denominator `loss_mask.sum()` of the masked mean in forward_step. -/
def masked_mean_denominator (lossMask : List ℚ) : ℚ := lossMask.sum

/-- The masked mean `torch.sum(losses * loss_mask) / loss_mask.sum()` of
forward_step. -/
def masked_mean (losses lossMask : List ℚ) : ℚ :=
  (List.zipWith (fun a b => a * b) losses lossMask).sum / masked_mean_denominator lossMask

/-! ### sample_sequence (generate_samples.py lines 256-292)

The loop `while counter < (args.out_seq_length - org_context_length)`
draws one token per pass from the model (the model call, the temperature
and top-k/top-p filtering and the multinomial draw are abstracted into a
`sampler` that maps the current token list to the next token), breaks
without appending when the drawn token is the end token, and otherwise
appends it and increments `counter`. `counter` starts at 0 and rises by 1
per completed pass, so `out_seq_length - context.length` (with the
truncated Nat subtraction matching the negative-bound case of the Python
comparison) is exactly the maximal number of passes. The second component
counts the sampling passes executed. -/

def sampleLoop (sampler : List Nat → Nat) (endToken : Nat) : Nat → List Nat → List Nat × Nat
  | 0, tokens => (tokens, 0)
  | fuel + 1, tokens =>
    let prev := sampler tokens
    if prev = endToken then (tokens, 1)
    else
      let rest := sampleLoop sampler endToken fuel (tokens ++ [prev])
      (rest.1, rest.2 + 1)

def sample_sequence (sampler : List Nat → Nat) (endToken : Nat)
    (context : List Nat) (out_seq_length : Nat) : List Nat × Nat :=
  sampleLoop sampler endToken (out_seq_length - context.length) context

/-! ### CogView dataset padding (data_utils/datasets.py lines 64-99)

`pad_to_len` pads a flattened row with the `[PAD]` token up to `ml` or
truncates it to `ml`, returning the processed row and the separator
`attention_mask_sep`; both process_fn closures of get_dataset_by_type
('TokenizedDataset' on `row.flatten()` and 'TextCodeDataset' on
`TextCodeTemplate(text, code)`) then build the same sample
`{'text': ret, 'loss_mask': [1]*sep + [0]*(len(ret)-sep)}` from it, so
the common closure is embedded once, over the already-flattened row. -/

def pad_to_len (padToken ml : Nat) (ret : List Nat) : List Nat × Nat :=
  if ret.length < ml then
    (ret ++ List.replicate (ml - ret.length) padToken, ret.length)
  else
    (ret.take ml, ml)

def process_fn (padToken ml : Nat) (row : List Nat) : List Nat × List Nat :=
  let p := pad_to_len padToken ml row
  (p.1, List.replicate p.2 1 ++ List.replicate (p.1.length - p.2) 0)

/-! ### backward_step (pretrain_gpt2.py lines 350-395)

The gradient side effects are recorded as an event trace; the returned
reduced loss is computed exactly as in the source. `torch.distributed.all_reduce`
sums a value over all data-parallel processes, so it is modelled by
summing `allLosses`, the list of the per-process `lm_loss` values of this
call, of which `lm_loss` is the calling process's own entry. -/

inductive BwEvent where
  | modelBackward (loss : ℚ)
  | zeroGrad
  | fp16Backward (loss : ℚ)
  | lossBackward (loss : ℚ)
  | allReduceLosses
  | allreduceParams
  | updateMasterGrads
  | clipMaster (c : ℚ)
  | clipModel (c : ℚ)
  deriving DecidableEq

def backward_step (deepspeed fp16 useTorchDDP : Bool) (clip_grad : ℚ)
    (world_size : Nat) (lm_loss : ℚ) (allLosses : List ℚ) : ℚ × List BwEvent :=
  let bwdEvents :=
    if deepspeed then [BwEvent.modelBackward lm_loss]
    else
      [BwEvent.zeroGrad] ++
        (if fp16 then [BwEvent.fp16Backward lm_loss] else [BwEvent.lossBackward lm_loss])
  let reduced :=
    if deepspeed then (lm_loss, ([] : List BwEvent))
    else
      (allLosses.sum / (world_size : ℚ),
        [BwEvent.allReduceLosses] ++ (if !useTorchDDP then [BwEvent.allreduceParams] else []))
  let updEvents :=
    if deepspeed then ([] : List BwEvent)
    else
      (if fp16 then [BwEvent.updateMasterGrads] else []) ++
        (if 0 < clip_grad then
          [if fp16 then BwEvent.clipMaster clip_grad else BwEvent.clipModel clip_grad]
         else [])
  (reduced.1, bwdEvents ++ reduced.2 ++ updEvents)

/-! ### The training loop (pretrain_gpt2.py lines 325-347, 412-452, 484-550)

The model call `logits, *mems = model(tokens, position_ids,
attention_mask, *mems)` is an abstract function `model : B → List H →
L × List H` from a batch and the carried hidden-state list to the logits
and the new hidden-state list; the cross-entropy/masked-mean computation
of forward_step is abstracted into `lossOf : L → ℚ` (its concrete masked
mean is modelled separately above). Successive `next(data_iterator)`
calls are the stream `batch : Nat → B` indexed by the number of forward
passes taken so far; likewise `overflow` and the deepspeed gradient
accumulation `boundary` are streams indexed by the forward pass. -/

variable {B L H : Type}

/-- forward_step: fetches the batch, calls the model, rebinds `mems` to
the model outputs after the logits and returns the masked-mean loss
together with those mems. -/
def forward_step (model : B → List H → L × List H) (lossOf : L → ℚ)
    (b : B) (mems : List H) : ℚ × List H :=
  (lossOf (model b mems).1, (model b mems).2)

/-- Outcome of the parameter-update section of train_step
(lines 429-449): whether `complete` was set, whether
`lr_scheduler.step()` ran, and the `skipped_iter` value. -/
structure UpdOut where
  complete : Bool
  lrStepped : Bool
  skipped_iter : Nat
  deriving DecidableEq

/-- Lines 429-449 of train_step: `skipped_iter, complete = 0, False`,
then the deepspeed branch steps the scheduler only at a gradient
accumulation boundary and only without fp16 overflow, and the
non-deepspeed branch always completes, stepping the scheduler exactly
when not (fp16 and overflow). -/
def optimizer_update (deepspeed boundary fp16 overflow : Bool) : UpdOut :=
  if deepspeed then
    if boundary then
      { complete := true
        lrStepped := !(fp16 && overflow)
        skipped_iter := if fp16 && overflow then 1 else 0 }
    else
      { complete := false, lrStepped := false, skipped_iter := 0 }
  else
    { complete := true
      lrStepped := !(fp16 && overflow)
      skipped_iter := if fp16 && overflow then 1 else 0 }

/-- Result of one train_step call. -/
structure StepOut (H : Type) where
  loss : ℚ
  skipped_iter : Nat
  mems : List H
  lrStepped : Bool
  forward_passes : Nat

/-- train_step (lines 412-452): the `while True` loop runs forward and
backward once per pass and leaves the loop when `complete` is set; the
recursion is on explicit fuel, `none` standing for running out of fuel
before `complete` (shown below never to happen in non-deepspeed mode,
where the first pass always completes). `k` indexes the next forward
pass. -/
def train_step (model : B → List H → L × List H) (lossOf : L → ℚ)
    (deepspeed fp16 : Bool) (batch : Nat → B) (overflow boundary : Nat → Bool) :
    Nat → List H → Nat → Option (StepOut H)
  | _, _, 0 => none
  | k, mems, fuel + 1 =>
    let fwd := forward_step model lossOf (batch k) mems
    let upd := optimizer_update deepspeed (boundary k) fp16 (overflow k)
    if upd.complete then
      some { loss := fwd.1, skipped_iter := upd.skipped_iter, mems := fwd.2,
             lrStepped := upd.lrStepped, forward_passes := 1 }
    else
      match train_step model lossOf deepspeed fp16 batch overflow boundary (k + 1) fwd.2 fuel with
      | some out => some { out with forward_passes := out.forward_passes + 1 }
      | none => none

/-- The arguments of train that the claims depend on. Python truthiness
of `args.save` (a path string) is a Bool; truthiness of the integer
intervals is being nonzero. -/
structure TrainArgs where
  train_iters : Nat
  fp16 : Bool
  save : Bool
  save_interval : Nat
  exit_interval : Nat

/-- The state threaded through the `while args.iteration <
args.train_iters` loop of train, plus the instrumentation the claims
speak about: `steps` counts executed train_step calls, `saved` lists the
iteration numbers at which save_checkpoint ran, `memsLog` records the
mems value passed into each executed train_step, and `exited` records
that the `args.exit_interval` branch called `exit()`. -/
structure TrainState (H : Type) where
  iteration : Nat
  skipped_iters : Nat
  mems : List H
  steps : Nat
  saved : List Nat
  memsLog : List (List H)
  exited : Bool

/-- One pass of the body of the train loop (lines 502-548, without the
pure logging/evaluation branches, which touch none of this state):
train_step with the current mems, `skipped_iters += skipped_iter`,
`args.iteration += 1`, the save_checkpoint branch and the exit branch.
In non-deepspeed mode train_step completes on its first pass, so fuel 1
is exact (proved below). -/
def train_body (model : B → List H → L × List H) (lossOf : L → ℚ)
    (args : TrainArgs) (batch : Nat → B) (overflow boundary : Nat → Bool)
    (s : TrainState H) : TrainState H :=
  match train_step model lossOf false args.fp16 batch overflow boundary s.steps s.mems 1 with
  | none => s
  | some out =>
    { iteration := s.iteration + 1
      skipped_iters := s.skipped_iters + out.skipped_iter
      mems := out.mems
      steps := s.steps + 1
      saved := s.saved ++
        (if args.save && (args.save_interval != 0) && ((s.iteration + 1) % args.save_interval == 0)
         then [s.iteration + 1] else [])
      memsLog := s.memsLog ++ [s.mems]
      exited := (args.exit_interval != 0) && ((s.iteration + 1) % args.exit_interval == 0) }

/-- The train loop with explicit fuel: it stops when the guard
`args.iteration < args.train_iters` fails or after a pass whose exit
branch fired. Each pass raises `iteration` by exactly 1, so
`args.train_iters - iteration` fuel is exact (lemmas below). -/
def trainLoopAux (model : B → List H → L × List H) (lossOf : L → ℚ)
    (args : TrainArgs) (batch : Nat → B) (overflow boundary : Nat → Bool) :
    Nat → TrainState H → TrainState H
  | 0, s => s
  | fuel + 1, s =>
    if s.exited then s
    else if s.iteration < args.train_iters then
      trainLoopAux model lossOf args batch overflow boundary fuel
        (train_body model lossOf args batch overflow boundary s)
    else s

/-- train (lines 484-550). -/
def train (model : B → List H → L × List H) (lossOf : L → ℚ)
    (args : TrainArgs) (batch : Nat → B) (overflow boundary : Nat → Bool)
    (s : TrainState H) : TrainState H :=
  trainLoopAux model lossOf args batch overflow boundary (args.train_iters - s.iteration) s

/-- The state train starts from: `skipped_iters = 0` (line 495),
`mems = []` (line 499), iteration as set by main. -/
def initTrainState (iteration0 : Nat) : TrainState H :=
  { iteration := iteration0, skipped_iters := 0, mems := [], steps := 0,
    saved := [], memsLog := [], exited := false }

/-- The evaluation loop of evaluate (lines 553-588): `iteration` runs
from 0 up to `eval_iters`, so it executes exactly `eval_iters` forward
steps, threading `mems` from one to the next; `reduce` models the
all-reduce-and-divide applied to each loss in the DDP branch (lines
578-580). Returns the accumulated loss, the final mems and the log of
the mems passed into each forward_step. -/
def evalLoop (model : B → List H → L × List H) (lossOf : L → ℚ)
    (batch : Nat → B) (reduce : ℚ → ℚ) :
    Nat → Nat → List H → ℚ → List (List H) → ℚ × List H × List (List H)
  | 0, _, mems, total, log => (total, mems, log)
  | r + 1, k, mems, total, log =>
    let fwd := forward_step model lossOf (batch k) mems
    evalLoop model lossOf batch reduce r (k + 1) fwd.2 (total + reduce fwd.1) (log ++ [mems])

/-- evaluate: `total_lm_loss = 0`, `mems = []`, the loop, then
`total_lm_loss /= args.eval_iters`. -/
def evaluate (model : B → List H → L × List H) (lossOf : L → ℚ)
    (batch : Nat → B) (reduce : ℚ → ℚ) (eval_iters : Nat) : ℚ × List H × List (List H) :=
  let r := evalLoop model lossOf batch reduce eval_iters 0 [] 0 []
  (r.1 / (eval_iters : ℚ), r.2.1, r.2.2)

/-- The mems value sitting in the loop state after `n` more forward
passes when the next pass has index `k` and the current mems are `m`:
the recurrence that claim C1 asserts the loops implement. -/
def memsFrom (model : B → List H → L × List H) (batch : Nat → B) :
    Nat → List H → Nat → List H
  | _, m, 0 => m
  | k, m, n + 1 => memsFrom model batch (k + 1) (model (batch k) m).2 n

/-- main (lines 760-779): `iteration = 0`, reassigned from train's
result only when `args.train_iters > 0 and args.do_train`. -/
def main_final_iteration (do_train : Bool) (train_iters trainResult : Nat) : Nat :=
  if 0 < train_iters && do_train then trainResult else 0

/-- main line 778: `if args.save and iteration != 0`. -/
def main_final_save (save : Bool) (iteration : Nat) : Bool :=
  save && (iteration != 0)

/-! ### Concrete instantiation used by the witnesses -/

def demoModel : Nat → List Nat → Nat × List Nat := fun b m => (b, b :: m)

def demoLoss : Nat → ℚ := fun l => (l : ℚ)

def demoBatch : Nat → Nat := fun k => k

def demoOverflow : Nat → Bool := fun k => decide (k % 2 = 1)

def demoBoundary : Nat → Bool := fun _ => false

def demoArgs : TrainArgs :=
  { train_iters := 2, fp16 := true, save := true, save_interval := 1, exit_interval := 0 }

def demoFinal : TrainState Nat :=
  train demoModel demoLoss demoArgs demoBatch demoOverflow demoBoundary (initTrainState 0)

/-! ## Theorems -/

/-! ### Claim C2: the transformer-xl attention mask -/

/-- C2 (amended): for the transformer-xl attention mask built by
get_masks_and_position_ids, query position `i` attends to key position
`j` exactly when `i + 1 - seq + mem ≤ j ≤ i + mem`: a strictly causal
sliding window of width `seq_length` ending at the query's own absolute
position `i + mem`. In particular no future position is ever attended,
but a query does not attend to all `mem_length` carried memory
positions, only to the part of them inside its window. -/
theorem C2_xl_mask_window (seq mem i j : Nat) :
    (xlAttentionMask seq mem i j = 1 ↔
      ((i : Int) + (1 - (seq : Int) + (mem : Int)) ≤ (j : Int)
        ∧ (j : Int) ≤ (i : Int) + (mem : Int)))
    ∧ ((i : Int) + (mem : Int) < (j : Int) → xlAttentionMask seq mem i j = 0)
    ∧ (xlAttentionMask seq mem i j = 0 ∨ xlAttentionMask seq mem i j = 1) := by
  unfold xlAttentionMask trilM triuM
  refine ⟨⟨?_, ?_⟩, ?_, ?_⟩
  · intro h
    split_ifs at h with h1 h2
    · exact ⟨h2, h1⟩
    · norm_num at h
    · norm_num at h
  · rintro ⟨h2, h1⟩
    rw [if_pos h1, if_pos h2]
  · intro h
    rw [if_neg (by omega)]
  · split_ifs <;> simp

/-- C2 (counterexample): with `seq_length = 2` and `mem_length = 1` the
actual mask forbids query position 1 from attending memory position 0,
while the claimed mask (attend to all carried memory positions) allows
it. -/
theorem C2_counterexample :
    xlAttentionMask 2 1 1 0 = 0 ∧ xlClaimedMask 2 1 1 0 = 1 := by
  constructor <;> decide

theorem C2_witness :
    xlAttentionMask 4 2 0 1 = 1 ∧ xlAttentionMask 4 2 0 3 = 0 :=
  ⟨(C2_xl_mask_window 4 2 0 1).1.mpr (by norm_num),
   (C2_xl_mask_window 4 2 0 3).2.1 (by norm_num)⟩

/-! ### Claim C6: vocabulary padding -/

theorem pad_measure_lt (m a : Nat) (hm : m ≠ 0) (ha : a % m ≠ 0) :
    (m - (a + 1) % m) % m < (m - a % m) % m := by
  have hm2 : 1 < m := by
    rcases m with _ | (_ | m)
    · exact absurd rfl hm
    · exact absurd (Nat.mod_one a) ha
    · omega
  have hlt : a % m < m := Nat.mod_lt _ (by omega)
  have h1 : (a + 1) % m = (a % m + 1) % m := by
    rw [Nat.add_mod, Nat.mod_eq_of_lt hm2]
  rcases Nat.lt_or_ge (a % m + 1) m with hw | hw
  · rw [h1, Nat.mod_eq_of_lt hw,
      Nat.mod_eq_of_lt (show m - (a % m + 1) < m by omega),
      Nat.mod_eq_of_lt (show m - a % m < m by omega)]
    omega
  · have hwe : a % m + 1 = m := by omega
    rw [h1, hwe, Nat.mod_self, Nat.sub_zero, Nat.mod_self]
    have h2 : m - a % m = 1 := by omega
    rw [h2, Nat.mod_eq_of_lt hm2]
    omega

/-- The padding loop computes the least number `≥ a` divisible by `m`,
provided its fuel is at least the number `(m - a % m) % m` of iterations
it needs. -/
theorem pad_vocab_loop_spec (m : Nat) (hm : m ≠ 0) :
    ∀ fuel a, (m - a % m) % m ≤ fuel →
      a ≤ pad_vocab_loop m fuel a ∧ m ∣ pad_vocab_loop m fuel a ∧
        ∀ n, a ≤ n → m ∣ n → pad_vocab_loop m fuel a ≤ n := by
  intro fuel
  induction fuel with
  | zero =>
    intro a hle
    have ha : a % m = 0 := by
      by_contra ha
      have h1 : a % m < m := Nat.mod_lt _ (Nat.pos_of_ne_zero hm)
      rw [Nat.mod_eq_of_lt (show m - a % m < m by omega)] at hle
      omega
    simp only [pad_vocab_loop]
    exact ⟨le_refl a, Nat.dvd_of_mod_eq_zero ha, fun n hn _ => hn⟩
  | succ fuel ih =>
    intro a hle
    by_cases ha : a % m = 0
    · simp only [pad_vocab_loop, ha, ne_eq, not_true_eq_false, if_false]
      exact ⟨le_refl a, Nat.dvd_of_mod_eq_zero ha, fun n hn _ => hn⟩
    · have hstep : (m - (a + 1) % m) % m ≤ fuel := by
        have := pad_measure_lt m a hm ha
        omega
      obtain ⟨h1, h2, h3⟩ := ih (a + 1) hstep
      simp only [pad_vocab_loop, ha, ne_eq, not_false_eq_true, if_true]
      refine ⟨by omega, h2, ?_⟩
      intro n hn hdvd
      have hna : n ≠ a := by
        rintro rfl
        exact ha (Nat.dvd_iff_mod_eq_zero.mp hdvd)
      exact h3 n (by omega) hdvd

/-- pad_vocab with fuel `m` always reaches the stopping condition. -/
theorem pad_vocab_spec (before m : Nat) (hm : m ≠ 0) :
    before ≤ pad_vocab before m ∧ m ∣ pad_vocab before m ∧
      ∀ n, before ≤ n → m ∣ n → pad_vocab before m ≤ n :=
  pad_vocab_loop_spec m hm m before
    (le_of_lt (Nat.mod_lt _ (Nat.pos_of_ne_zero hm)))

/-- C6 (amended): the vocabulary size computed on rank 0 and broadcast by
get_train_val_test_data is the least integer `≥ num_tokens` divisible by
`args.make_vocab_size_divisible_by` times the model-parallel world size;
prepare_tokenizer in generate_samples pads the same way but with the
multiple `args.make_vocab_size_divisible_by` alone, so the two padded
sizes coincide when the model-parallel world size is 1 but not in
general. -/
theorem C6_vocab_padding (num_tokens divisible mpWorldSize : Nat)
    (hd : divisible ≠ 0) (hw : mpWorldSize ≠ 0) :
    (num_tokens ≤ padded_vocab_pretrain num_tokens divisible mpWorldSize
      ∧ divisible * mpWorldSize ∣ padded_vocab_pretrain num_tokens divisible mpWorldSize
      ∧ ∀ n, num_tokens ≤ n → divisible * mpWorldSize ∣ n →
          padded_vocab_pretrain num_tokens divisible mpWorldSize ≤ n)
    ∧ (num_tokens ≤ padded_vocab_generate num_tokens divisible
      ∧ divisible ∣ padded_vocab_generate num_tokens divisible
      ∧ ∀ n, num_tokens ≤ n → divisible ∣ n →
          padded_vocab_generate num_tokens divisible ≤ n)
    ∧ (mpWorldSize = 1 →
        padded_vocab_generate num_tokens divisible
          = padded_vocab_pretrain num_tokens divisible mpWorldSize) := by
  refine ⟨pad_vocab_spec _ _ (Nat.mul_ne_zero hd hw), pad_vocab_spec _ _ hd, ?_⟩
  rintro rfl
  simp [padded_vocab_pretrain, padded_vocab_generate]

/-- C6 (counterexample): with `num_tokens = 5`,
`make_vocab_size_divisible_by = 2` and model-parallel world size 2, the
pretraining script pads the vocabulary to 8 while prepare_tokenizer pads
it to 6: the two scripts do not use the same multiple. -/
theorem C6_counterexample :
    padded_vocab_pretrain 5 2 2 = 8 ∧ padded_vocab_generate 5 2 = 6
      ∧ padded_vocab_pretrain 5 2 2 ≠ padded_vocab_generate 5 2 := by
  decide

theorem C6_witness :
    (2 : Nat) ≠ 0 ∧ 5 ≤ padded_vocab_pretrain 5 2 2
      ∧ 2 * 2 ∣ padded_vocab_pretrain 5 2 2 := by
  have h := C6_vocab_padding 5 2 2 (by decide) (by decide)
  exact ⟨by decide, h.1.1, h.1.2.1⟩

/-! ### Claim C8: the masked-mean denominator -/

theorem update_loss_mask_cons (eod d : Nat) (ds : List Nat) :
    update_loss_mask eod (d :: ds) (List.replicate (d :: ds).length 1)
      = (if d = eod then 0 else 1) :: update_loss_mask eod ds (List.replicate ds.length 1) := by
  simp [update_loss_mask, List.replicate_succ]

theorem update_loss_mask_ones_nonneg (eod : Nat) (data : List Nat) :
    0 ≤ (update_loss_mask eod data (List.replicate data.length 1)).sum := by
  induction data with
  | nil => simp [update_loss_mask]
  | cons d ds ih =>
    rw [update_loss_mask_cons, List.sum_cons]
    have h0 : (0 : ℚ) ≤ if d = eod then 0 else 1 := by split <;> norm_num
    linarith

theorem update_loss_mask_ones_pos (eod : Nat) (data : List Nat)
    (h : ∃ d ∈ data, d ≠ eod) :
    0 < (update_loss_mask eod data (List.replicate data.length 1)).sum := by
  induction data with
  | nil => simp at h
  | cons d ds ih =>
    rw [update_loss_mask_cons, List.sum_cons]
    obtain ⟨x, hx, hxe⟩ := h
    rcases List.mem_cons.mp hx with rfl | hx2
    · rw [if_neg hxe]
      have := update_loss_mask_ones_nonneg eod ds
      linarith
    · have h2 := ih ⟨x, hx2, hxe⟩
      have h0 : (0 : ℚ) ≤ if d = eod then 0 else 1 := by split <;> norm_num
      linarith

/-- C8 (confirmed): the denominator of forward_step's unguarded masked
mean is nonzero for every loss mask with nonnegative entries at least one
of which is nonzero; and in the non-transformer-xl branch, where
get_masks_and_position_ids starts from a mask of ones and zeroes it at
every EOD position, the denominator is nonzero for every batch that has
at least one non-EOD token. -/
theorem C8_loss_mask_denominator (eod : Nat) (data : List Nat) :
    (∀ lm : List ℚ, (∀ x ∈ lm, 0 ≤ x) → (∃ x ∈ lm, x ≠ 0) →
        masked_mean_denominator lm ≠ 0)
    ∧ ((∃ d ∈ data, d ≠ eod) →
        masked_mean_denominator (update_loss_mask eod data (List.replicate data.length 1)) ≠ 0) := by
  constructor
  · intro lm hnn hex
    obtain ⟨x, hx, hxne⟩ := hex
    have hxpos : 0 < x := lt_of_le_of_ne (hnn x hx) (Ne.symm hxne)
    have hle : x ≤ lm.sum := List.single_le_sum hnn x hx
    unfold masked_mean_denominator
    linarith
  · intro h
    exact ne_of_gt (update_loss_mask_ones_pos eod data h)

theorem C8_witness :
    masked_mean_denominator (update_loss_mask 0 [0, 1] (List.replicate ([0, 1] : List Nat).length 1)) ≠ 0 :=
  (C8_loss_mask_denominator 0 [0, 1]).2 ⟨1, by decide, by decide⟩

/-! ### Claim C9: sample_sequence invariants -/

theorem sampleLoop_spec (sampler : List Nat → Nat) (endToken : Nat) :
    ∀ fuel tokens,
      (∃ rest, (sampleLoop sampler endToken fuel tokens).1 = tokens ++ rest)
      ∧ (sampleLoop sampler endToken fuel tokens).1.length ≤ tokens.length + fuel
      ∧ (∀ t ∈ (sampleLoop sampler endToken fuel tokens).1.drop tokens.length, t ≠ endToken)
      ∧ (sampleLoop sampler endToken fuel tokens).2 ≤ fuel := by
  intro fuel
  induction fuel with
  | zero =>
    intro tokens
    refine ⟨⟨[], by simp [sampleLoop]⟩, by simp [sampleLoop], ?_, by simp [sampleLoop]⟩
    simp [sampleLoop]
  | succ fuel ih =>
    intro tokens
    by_cases hend : sampler tokens = endToken
    · refine ⟨⟨[], ?_⟩, ?_, ?_, ?_⟩ <;> simp [sampleLoop, hend]
    · obtain ⟨⟨rest, hpre⟩, hlen, hdrop, hit⟩ := ih (tokens ++ [sampler tokens])
      have hunf : sampleLoop sampler endToken (fuel + 1) tokens
          = ((sampleLoop sampler endToken fuel (tokens ++ [sampler tokens])).1,
             (sampleLoop sampler endToken fuel (tokens ++ [sampler tokens])).2 + 1) := by
        simp [sampleLoop, hend]
      rw [hpre, List.drop_left] at hdrop
      rw [hunf]
      refine ⟨⟨[sampler tokens] ++ rest, ?_⟩, ?_, ?_, ?_⟩
      · rw [hpre]
        simp
      · simp only [hpre, List.length_append, List.length_singleton] at hlen ⊢
        omega
      · intro t ht
        rw [hpre, List.append_assoc, List.drop_left] at ht
        rcases List.mem_append.mp ht with h1 | h1
        · rw [List.mem_singleton] at h1
          subst h1
          exact hend
        · exact hdrop t h1
      · simp only []
        omega

/-- C9 (confirmed): for every context and every out_seq_length `N`,
sample_sequence only ever appends tokens (the context is a prefix of the
result), the result has length at most `max context.length N`, no
appended token equals the end token (sampling the end token breaks the
loop without appending), and the loop runs at most `N - context.length`
sampling passes. -/
theorem C9_sample_sequence (sampler : List Nat → Nat) (endToken : Nat)
    (context : List Nat) (out_seq_length : Nat) :
    (∃ rest, (sample_sequence sampler endToken context out_seq_length).1 = context ++ rest)
    ∧ (sample_sequence sampler endToken context out_seq_length).1.length
        ≤ max context.length out_seq_length
    ∧ (∀ t ∈ (sample_sequence sampler endToken context out_seq_length).1.drop context.length,
        t ≠ endToken)
    ∧ (sample_sequence sampler endToken context out_seq_length).2
        ≤ out_seq_length - context.length := by
  obtain ⟨hpre, hlen, hdrop, hit⟩ :=
    sampleLoop_spec sampler endToken (out_seq_length - context.length) context
  refine ⟨hpre, ?_, hdrop, hit⟩
  simp only [sample_sequence] at *
  omega

theorem C9_witness :
    (∃ rest, (sample_sequence (fun t => t.length) 99 [5, 6] 4).1 = [5, 6] ++ rest)
    ∧ (sample_sequence (fun t => t.length) 99 [5, 6] 4).2 ≤ 4 - 2 := by
  have h := C9_sample_sequence (fun t => t.length) 99 [5, 6] 4
  exact ⟨h.1, h.2.2.2⟩

/-! ### Claim C10: CogView dataset padding -/

/-- C10 (confirmed): for every dataset row (flattened for
'TokenizedDataset', template-assembled for 'TextCodeDataset'), the sample
built by process_fn has a text field of length exactly `ml`, obtained by
padding with the `[PAD]` token when the row is shorter than `ml` and by
truncation when it is longer, and a loss_mask field of length `ml` equal
to 1 on exactly the first `min row.length ml` positions and 0 after
them. -/
theorem C10_process_fn (padToken ml : Nat) (row : List Nat) :
    (process_fn padToken ml row).1.length = ml
    ∧ (process_fn padToken ml row).2.length = ml
    ∧ (process_fn padToken ml row).2
        = List.replicate (min row.length ml) 1 ++ List.replicate (ml - min row.length ml) 0
    ∧ (row.length ≤ ml →
        (process_fn padToken ml row).1 = row ++ List.replicate (ml - row.length) padToken)
    ∧ (ml ≤ row.length → (process_fn padToken ml row).1 = row.take ml) := by
  by_cases h : row.length < ml
  · simp only [process_fn, pad_to_len, if_pos h]
    refine ⟨?_, ?_, ?_, ?_, ?_⟩
    · simp only [List.length_append, List.length_replicate]
      omega
    · simp only [List.length_append, List.length_replicate]
      omega
    · have h1 : min row.length ml = row.length := by omega
      have h2 : (row ++ List.replicate (ml - row.length) padToken).length - row.length
          = ml - min row.length ml := by
        simp only [List.length_append, List.length_replicate]
        omega
      rw [h2, h1]
    · intro _
      trivial
    · intro h2
      exact absurd h2 (by omega)
  · simp only [process_fn, pad_to_len, if_neg h]
    refine ⟨?_, ?_, ?_, ?_, ?_⟩
    · simp only [List.length_take]
      omega
    · simp only [List.length_append, List.length_replicate, List.length_take]
      omega
    · have h1 : min row.length ml = ml := by omega
      have h2 : (row.take ml).length - ml = ml - min row.length ml := by
        simp only [List.length_take]
        omega
      rw [h2, h1]
    · intro h2
      have h3 : ml = row.length := by omega
      subst h3
      simp
    · intro _
      trivial

theorem C10_witness :
    (process_fn 9 4 [7, 8]).1 = [7, 8] ++ List.replicate (4 - 2) 9
    ∧ (process_fn 9 4 [7, 8]).2.length = 4 := by
  have h := C10_process_fn 9 4 [7, 8]
  exact ⟨h.2.2.2.1 (by decide), h.2.1⟩

/-! ### Claim C4: backward_step reduction, local backward and clipping -/

/-- C4 (confirmed): in non-deepspeed mode backward_step returns the
per-process loss summed by all-reduce over all processes and divided by
`args.world_size`; the loss given to the local backward pass is the
unreduced local loss; and gradient clipping to `args.clip_grad` happens
exactly when `args.clip_grad > 0`, after the master-gradient update in
the fp16 case. -/
theorem C4_backward_reduction (fp16 useTorchDDP : Bool) (clip_grad : ℚ)
    (world_size : Nat) (lm_loss : ℚ) (allLosses : List ℚ) :
    (backward_step false fp16 useTorchDDP clip_grad world_size lm_loss allLosses).1
        = allLosses.sum / (world_size : ℚ)
    ∧ ((if fp16 then BwEvent.fp16Backward lm_loss else BwEvent.lossBackward lm_loss)
        ∈ (backward_step false fp16 useTorchDDP clip_grad world_size lm_loss allLosses).2)
    ∧ ((BwEvent.clipMaster clip_grad
          ∈ (backward_step false fp16 useTorchDDP clip_grad world_size lm_loss allLosses).2
        ∨ BwEvent.clipModel clip_grad
          ∈ (backward_step false fp16 useTorchDDP clip_grad world_size lm_loss allLosses).2)
        ↔ 0 < clip_grad)
    ∧ (fp16 = true → 0 < clip_grad →
        ∃ pre, (backward_step false fp16 useTorchDDP clip_grad world_size lm_loss allLosses).2
          = pre ++ [BwEvent.updateMasterGrads, BwEvent.clipMaster clip_grad]) := by
  unfold backward_step
  refine ⟨by simp, ?_, ?_, ?_⟩
  · cases fp16 <;> simp
  · by_cases hc : 0 < clip_grad <;> cases fp16 <;> cases useTorchDDP <;>
      simp [hc]
  · intro hfp hc
    subst hfp
    refine ⟨[BwEvent.zeroGrad, BwEvent.fp16Backward lm_loss, BwEvent.allReduceLosses]
      ++ (if !useTorchDDP then [BwEvent.allreduceParams] else []), ?_⟩
    cases useTorchDDP <;> simp [hc]

theorem C4_witness :
    (backward_step false true true 1 2 (3 : ℚ) [3, 5]).1 = (8 : ℚ) / 2
    ∧ ∃ pre, (backward_step false true true 1 2 (3 : ℚ) [3, 5]).2
        = pre ++ [BwEvent.updateMasterGrads, BwEvent.clipMaster 1] := by
  have h := C4_backward_reduction true true 1 2 (3 : ℚ) [3, 5]
  refine ⟨?_, h.2.2.2 rfl (by norm_num)⟩
  rw [h.1]
  norm_num

/-! ### The train loop: shared lemmas for claims C1, C3, C5, C7 -/

variable (model : B → List H → L × List H) (lossOf : L → ℚ) (args : TrainArgs)
variable (batch : Nat → B) (overflow boundary : Nat → Bool)

/-- In non-deepspeed mode the first pass of the train_step loop always
sets `complete`, so any nonzero fuel gives the same, defined, result:
one forward/backward pass, the scheduler decision from this pass's
overflow flag. -/
theorem train_step_single_pass (fp16 : Bool) (k : Nat) (mems : List H) (fuel : Nat) :
    train_step model lossOf false fp16 batch overflow boundary k mems (fuel + 1)
      = some { loss := (forward_step model lossOf (batch k) mems).1,
               skipped_iter := if fp16 && overflow k then 1 else 0,
               mems := (forward_step model lossOf (batch k) mems).2,
               lrStepped := !(fp16 && overflow k),
               forward_passes := 1 } := by
  simp [train_step, optimizer_update]

theorem train_body_iteration (s : TrainState H) :
    (train_body model lossOf args batch overflow boundary s).iteration = s.iteration + 1 := rfl

theorem train_body_steps (s : TrainState H) :
    (train_body model lossOf args batch overflow boundary s).steps = s.steps + 1 := rfl

theorem train_body_skipped (s : TrainState H) :
    (train_body model lossOf args batch overflow boundary s).skipped_iters
      = s.skipped_iters + (if args.fp16 && overflow s.steps then 1 else 0) := rfl

theorem train_body_mems (s : TrainState H) :
    (train_body model lossOf args batch overflow boundary s).mems
      = (model (batch s.steps) s.mems).2 := rfl

theorem train_body_memsLog (s : TrainState H) :
    (train_body model lossOf args batch overflow boundary s).memsLog
      = s.memsLog ++ [s.mems] := rfl

theorem train_body_saved (s : TrainState H) :
    (train_body model lossOf args batch overflow boundary s).saved
      = s.saved ++
          (if args.save && (args.save_interval != 0)
              && ((s.iteration + 1) % args.save_interval == 0)
           then [s.iteration + 1] else []) := rfl

theorem train_body_exited (s : TrainState H) :
    (train_body model lossOf args batch overflow boundary s).exited
      = ((args.exit_interval != 0) && ((s.iteration + 1) % args.exit_interval == 0)) := rfl

/-- The fueled while-loop is some number of iterations of its body, at
most the fuel. -/
theorem trainLoopAux_eq_iterate :
    ∀ (fuel : Nat) (s : TrainState H), ∃ n, n ≤ fuel ∧
      trainLoopAux model lossOf args batch overflow boundary fuel s
        = (train_body model lossOf args batch overflow boundary)^[n] s := by
  intro fuel
  induction fuel with
  | zero =>
    intro s
    exact ⟨0, le_refl 0, rfl⟩
  | succ fuel ih =>
    intro s
    by_cases he : s.exited = true
    · exact ⟨0, Nat.zero_le _, by simp [trainLoopAux, he]⟩
    · by_cases hlt : s.iteration < args.train_iters
      · obtain ⟨n, hn, heq⟩ := ih (train_body model lossOf args batch overflow boundary s)
        refine ⟨n + 1, by omega, ?_⟩
        simp only [trainLoopAux]
        rw [if_neg he, if_pos hlt, heq, Function.iterate_succ_apply]
      · exact ⟨0, Nat.zero_le _, by simp [trainLoopAux, he, hlt]⟩

theorem iterate_iteration (n : Nat) (s : TrainState H) :
    ((train_body model lossOf args batch overflow boundary)^[n] s).iteration
      = s.iteration + n := by
  induction n generalizing s with
  | zero => simp
  | succ n ih =>
    rw [Function.iterate_succ_apply,
      ih (train_body model lossOf args batch overflow boundary s),
      train_body_iteration]
    omega

theorem iterate_steps (n : Nat) (s : TrainState H) :
    ((train_body model lossOf args batch overflow boundary)^[n] s).steps = s.steps + n := by
  induction n generalizing s with
  | zero => simp
  | succ n ih =>
    rw [Function.iterate_succ_apply,
      ih (train_body model lossOf args batch overflow boundary s),
      train_body_steps]
    omega

theorem iterate_skipped (n : Nat) (s : TrainState H) :
    ((train_body model lossOf args batch overflow boundary)^[n] s).skipped_iters
      = s.skipped_iters
        + ((List.range n).map
            (fun i => if args.fp16 && overflow (s.steps + i) then 1 else 0)).sum := by
  induction n generalizing s with
  | zero => simp
  | succ n ih =>
    rw [Function.iterate_succ_apply,
      ih (train_body model lossOf args batch overflow boundary s),
      train_body_skipped, train_body_steps, List.range_succ_eq_map]
    simp only [List.map_cons, List.map_map, List.sum_cons, Nat.add_zero]
    have hcong : (List.map
          ((fun i => if (args.fp16 && overflow (s.steps + i)) = true then (1 : Nat) else 0)
            ∘ Nat.succ) (List.range n))
        = List.map
            (fun i => if (args.fp16 && overflow (s.steps + 1 + i)) = true then (1 : Nat) else 0)
            (List.range n) := by
      apply List.map_congr_left
      intro i _
      simp only [Function.comp_apply]
      have h1 : s.steps + Nat.succ i = s.steps + 1 + i := by omega
      rw [h1]
    rw [hcong]
    omega

theorem iterate_mems (n : Nat) (s : TrainState H) :
    ((train_body model lossOf args batch overflow boundary)^[n] s).mems
      = memsFrom model batch s.steps s.mems n := by
  induction n generalizing s with
  | zero => simp [memsFrom]
  | succ n ih =>
    rw [Function.iterate_succ_apply,
      ih (train_body model lossOf args batch overflow boundary s),
      train_body_mems, train_body_steps]
    rfl

theorem iterate_memsLog (n : Nat) (s : TrainState H) :
    ((train_body model lossOf args batch overflow boundary)^[n] s).memsLog
      = s.memsLog ++ (List.range n).map (fun i => memsFrom model batch s.steps s.mems i) := by
  induction n generalizing s with
  | zero => simp
  | succ n ih =>
    rw [Function.iterate_succ_apply,
      ih (train_body model lossOf args batch overflow boundary s),
      train_body_memsLog, train_body_mems, train_body_steps, List.range_succ_eq_map]
    simp only [List.map_cons, List.map_map, Function.comp, List.append_assoc,
      List.singleton_append]
    rfl

theorem iterate_saved (n : Nat) (s : TrainState H) :
    ((train_body model lossOf args batch overflow boundary)^[n] s).saved
      = s.saved ++ (List.range' (s.iteration + 1) n).filter
          (fun i => args.save && (args.save_interval != 0) && (i % args.save_interval == 0)) := by
  induction n generalizing s with
  | zero => simp
  | succ n ih =>
    rw [Function.iterate_succ_apply,
      ih (train_body model lossOf args batch overflow boundary s),
      train_body_saved, train_body_iteration, List.range'_succ, List.filter_cons]
    by_cases hp : (args.save && (args.save_interval != 0)
        && ((s.iteration + 1) % args.save_interval == 0)) = true
    · simp [hp, List.append_assoc]
    · simp [hp]

/-- With the exit branch disabled, each loop pass raises `iteration` by
exactly one, so starting `fuel = train_iters - iteration` passes end at
exactly `train_iters`. -/
theorem trainLoopAux_iteration_exact :
    ∀ (fuel : Nat) (s : TrainState H), args.exit_interval = 0 → s.exited = false →
      s.iteration + fuel = args.train_iters →
      (trainLoopAux model lossOf args batch overflow boundary fuel s).iteration
        = args.train_iters := by
  intro fuel
  induction fuel with
  | zero =>
    intro s _ _ h
    simpa [trainLoopAux] using h
  | succ fuel ih =>
    intro s hexit hs hiter
    have hlt : s.iteration < args.train_iters := by omega
    simp only [trainLoopAux, hs, if_false, if_pos hlt]
    refine ih (train_body model lossOf args batch overflow boundary s) hexit ?_ ?_
    · rw [train_body_exited, hexit]
      simp
    · rw [train_body_iteration]
      omega

/-- The mems recurrence advanced once more applies the model to the last
value. -/
theorem memsFrom_succ :
    ∀ (n k : Nat) (m : List H),
      memsFrom model batch k m (n + 1)
        = (model (batch (k + n)) (memsFrom model batch k m n)).2 := by
  intro n
  induction n with
  | zero =>
    intro k m
    simp [memsFrom]
  | succ n ih =>
    intro k m
    have h1 : memsFrom model batch k m (n + 1 + 1)
        = memsFrom model batch (k + 1) ((model (batch k) m).2) (n + 1) := rfl
    have h2 : memsFrom model batch k m (n + 1)
        = memsFrom model batch (k + 1) ((model (batch k) m).2) n := rfl
    rw [h1, ih, h2, show k + 1 + n = k + (n + 1) by omega]

theorem getD_map_range {α : Type} (f : Nat → α) (n j : Nat) (d : α) (h : j < n) :
    ((List.range n).map f).getD j d = f j := by
  rw [List.getD_eq_getElem?_getD]
  simp [List.getElem?_map, List.getElem?_range h]

/-- The evaluation loop threads mems through its `r` remaining
iterations, logging the input of each. -/
theorem evalLoop_spec (reduce : ℚ → ℚ) :
    ∀ (r k : Nat) (mems : List H) (total : ℚ) (log : List (List H)),
      (evalLoop model lossOf batch reduce r k mems total log).2.2
        = log ++ (List.range r).map (fun i => memsFrom model batch k mems i) := by
  intro r
  induction r with
  | zero =>
    intro k mems total log
    simp [evalLoop]
  | succ r ih =>
    intro k mems total log
    simp only [evalLoop]
    rw [ih, List.range_succ_eq_map]
    simp only [List.map_cons, List.map_map, Function.comp, List.append_assoc,
      List.singleton_append]
    rfl

/-- train is some number of body passes, at most `train_iters - i0`. -/
theorem train_eq_iterate (i0 : Nat) : ∃ n, n ≤ args.train_iters - i0 ∧
    train model lossOf args batch overflow boundary (initTrainState i0)
      = (train_body model lossOf args batch overflow boundary)^[n] (initTrainState i0) := by
  obtain ⟨n, hn, heq⟩ := trainLoopAux_eq_iterate model lossOf args batch overflow boundary
    (args.train_iters - i0) (initTrainState i0)
  exact ⟨n, hn, heq⟩

/-! ### Claim C7: train_step single pass and train termination -/

/-- C7 (confirmed): in non-deepspeed mode every train_step call performs
exactly one forward (and backward) pass and returns on that first pass
for any available fuel; train raises `args.iteration` by one per step, so
with `args.exit_interval` unset and the starting iteration at most
`args.train_iters`, train terminates with `iteration = args.train_iters`
after exactly `args.train_iters - iteration₀` steps. -/
theorem C7_termination (model : B → List H → L × List H) (lossOf : L → ℚ)
    (args : TrainArgs) (batch : Nat → B) (overflow boundary : Nat → Bool) (i0 : Nat)
    (hexit : args.exit_interval = 0) (hle : i0 ≤ args.train_iters) :
    (train model lossOf args batch overflow boundary (initTrainState i0)).iteration
        = args.train_iters
    ∧ (train model lossOf args batch overflow boundary (initTrainState i0)).steps
        = args.train_iters - i0
    ∧ ∀ (fp16 : Bool) (k : Nat) (mems : List H) (fuel : Nat),
        ∃ out, train_step model lossOf false fp16 batch overflow boundary k mems (fuel + 1)
            = some out ∧ out.forward_passes = 1 := by
  have hiter : (train model lossOf args batch overflow boundary (initTrainState i0)).iteration
      = args.train_iters := by
    unfold train
    exact trainLoopAux_iteration_exact model lossOf args batch overflow boundary
      (args.train_iters - i0) (initTrainState i0) hexit rfl
      (by simp only [initTrainState]; omega)
  obtain ⟨n, hn, heq⟩ := train_eq_iterate model lossOf args batch overflow boundary i0
  have hit2 : i0 + n = args.train_iters := by
    rw [heq, iterate_iteration] at hiter
    simpa [initTrainState] using hiter
  refine ⟨hiter, ?_, ?_⟩
  · rw [heq, iterate_steps]
    simp only [initTrainState]
    omega
  · intro fp16 k mems fuel
    exact ⟨_, train_step_single_pass model lossOf batch overflow boundary fp16 k mems fuel, rfl⟩

theorem C7_witness :
    demoFinal.iteration = demoArgs.train_iters
      ∧ demoFinal.steps = demoArgs.train_iters - 0 := by
  have h := C7_termination demoModel demoLoss demoArgs demoBatch demoOverflow demoBoundary 0
    rfl (by decide)
  exact ⟨h.1, h.2.1⟩

/-! ### Claim C3: loss scaling with overflow protection -/

/-- C3 (confirmed): on every train_step pass that completes a parameter
update, the learning-rate scheduler is stepped iff not (fp16 and the
optimizer reports overflow); `skipped_iter` is 1 exactly when the
scheduler was not stepped and 0 otherwise; in non-deepspeed mode
train_step returns these values computed from its single pass; and train
accumulates the returned skipped flags into `skipped_iters`. -/
theorem C3_loss_scaling (model : B → List H → L × List H) (lossOf : L → ℚ)
    (args : TrainArgs) (batch : Nat → B) (overflow boundary : Nat → Bool) (i0 : Nat) :
    (∀ deepspeed bnd fp16 ovf : Bool,
        (optimizer_update deepspeed bnd fp16 ovf).complete = true →
          ((optimizer_update deepspeed bnd fp16 ovf).lrStepped = true
              ↔ ¬(fp16 = true ∧ ovf = true))
          ∧ (optimizer_update deepspeed bnd fp16 ovf).skipped_iter
              = (if (optimizer_update deepspeed bnd fp16 ovf).lrStepped = true then 0 else 1))
    ∧ (∀ (fp16 : Bool) (k : Nat) (mems : List H) (fuel : Nat) (out : StepOut H),
        train_step model lossOf false fp16 batch overflow boundary k mems fuel = some out →
          out.lrStepped = !(fp16 && overflow k)
          ∧ out.skipped_iter = (if fp16 && overflow k then 1 else 0))
    ∧ (train model lossOf args batch overflow boundary (initTrainState i0)).skipped_iters
        = ((List.range
              (train model lossOf args batch overflow boundary (initTrainState i0)).steps).map
            (fun i => if args.fp16 && overflow i then 1 else 0)).sum := by
  refine ⟨?_, ?_, ?_⟩
  · intro ds bnd fp16 ovf
    cases ds <;> cases bnd <;> cases fp16 <;> cases ovf <;> decide
  · intro fp16 k mems fuel out hout
    cases fuel with
    | zero => simp [train_step] at hout
    | succ fuel =>
      rw [train_step_single_pass model lossOf batch overflow boundary fp16 k mems fuel] at hout
      have h2 := Option.some.inj hout
      subst h2
      exact ⟨rfl, rfl⟩
  · obtain ⟨n, hn, heq⟩ := train_eq_iterate model lossOf args batch overflow boundary i0
    rw [heq, iterate_skipped, iterate_steps]
    simp [initTrainState]

theorem C3_witness :
    demoFinal.skipped_iters
      = ((List.range demoFinal.steps).map
          (fun i => if demoArgs.fp16 && demoOverflow i then 1 else 0)).sum
    ∧ (optimizer_update false false true true).skipped_iter
        = (if (optimizer_update false false true true).lrStepped = true then 0 else 1) := by
  have h := C3_loss_scaling demoModel demoLoss demoArgs demoBatch demoOverflow demoBoundary 0
  exact ⟨h.2.2, (h.1 false false true true rfl).2⟩

/-! ### Claim C5: checkpointing schedule -/

/-- C5 (confirmed): during train, save_checkpoint runs at the end of
iteration `i` exactly when `args.save` is set, `args.save_interval` is
nonzero and `i` is a multiple of `args.save_interval` (among the
iterations the loop actually executed, `iteration₀ < i ≤` the final
iteration); and after training, main saves one more checkpoint exactly
when `args.save` is set and the iteration count `main` got back is
nonzero. -/
theorem C5_checkpoint_schedule (model : B → List H → L × List H) (lossOf : L → ℚ)
    (args : TrainArgs) (batch : Nat → B) (overflow boundary : Nat → Bool) (i0 : Nat) :
    (∀ i, i ∈ (train model lossOf args batch overflow boundary (initTrainState i0)).saved
        ↔ (args.save = true ∧ args.save_interval ≠ 0 ∧ i % args.save_interval = 0
            ∧ i0 < i
            ∧ i ≤ (train model lossOf args batch overflow boundary
                    (initTrainState i0)).iteration))
    ∧ (∀ (save do_train : Bool) (ti r : Nat),
        main_final_save save (main_final_iteration do_train ti r) = true
          ↔ (save = true ∧ main_final_iteration do_train ti r ≠ 0)) := by
  obtain ⟨n, hn, heq⟩ := train_eq_iterate model lossOf args batch overflow boundary i0
  constructor
  · intro i
    rw [heq, iterate_saved, iterate_iteration]
    simp only [initTrainState, List.nil_append]
    rw [List.mem_filter]
    constructor
    · rintro ⟨hrange, hcond⟩
      rw [List.mem_range'_1] at hrange
      simp only [Bool.and_eq_true, bne_iff_ne, ne_eq, beq_iff_eq] at hcond
      exact ⟨hcond.1.1, hcond.1.2, hcond.2, by omega, by omega⟩
    · rintro ⟨h1, h2, h3, h4, h5⟩
      refine ⟨?_, ?_⟩
      · rw [List.mem_range'_1]
        omega
      · simp only [Bool.and_eq_true, bne_iff_ne, ne_eq, beq_iff_eq]
        exact ⟨⟨h1, h2⟩, h3⟩
  · intro save do_train ti r
    simp [main_final_save, Bool.and_eq_true, bne_iff_ne]

theorem C5_witness : 1 ∈ demoFinal.saved := by
  have h := C5_checkpoint_schedule demoModel demoLoss demoArgs demoBatch demoOverflow
    demoBoundary 0
  exact (h.1 1).mpr ⟨rfl, by decide, by decide, by decide, by decide⟩

/-! ### Claim C1: mems are carried forward across mini-batches -/

/-- C1 (confirmed): the mems returned by forward_step are exactly the
extra outputs of the model call after the logits; train initialises mems
to the empty list and passes the mems returned by each iteration's
forward_step unchanged into the next iteration's forward_step; evaluate
restarts from an empty mems list and threads mems the same way through
its eval_iters iterations. -/
theorem C1_mems_threading (model : B → List H → L × List H) (lossOf : L → ℚ)
    (args : TrainArgs) (batch : Nat → B) (overflow boundary : Nat → Bool)
    (i0 : Nat) (reduce : ℚ → ℚ) (eval_iters : Nat) :
    (∀ (b : B) (mems : List H), (forward_step model lossOf b mems).2 = (model b mems).2)
    ∧ ((train model lossOf args batch overflow boundary (initTrainState i0)).memsLog.getD 0 []
          = []
      ∧ (train model lossOf args batch overflow boundary (initTrainState i0)).memsLog.length
          = (train model lossOf args batch overflow boundary (initTrainState i0)).steps
      ∧ ∀ k, k + 1 < (train model lossOf args batch overflow boundary
            (initTrainState i0)).memsLog.length →
          (train model lossOf args batch overflow boundary
              (initTrainState i0)).memsLog.getD (k + 1) []
            = (forward_step model lossOf (batch k)
                ((train model lossOf args batch overflow boundary
                    (initTrainState i0)).memsLog.getD k [])).2)
    ∧ ((evaluate model lossOf batch reduce eval_iters).2.2.getD 0 [] = []
      ∧ (evaluate model lossOf batch reduce eval_iters).2.2.length = eval_iters
      ∧ ∀ k, k + 1 < eval_iters →
          (evaluate model lossOf batch reduce eval_iters).2.2.getD (k + 1) []
            = (forward_step model lossOf (batch k)
                ((evaluate model lossOf batch reduce eval_iters).2.2.getD k [])).2) := by
  obtain ⟨n, hn, heq⟩ := train_eq_iterate model lossOf args batch overflow boundary i0
  have hlog : (train model lossOf args batch overflow boundary (initTrainState i0)).memsLog
      = (List.range n).map (fun i => memsFrom model batch 0 [] i) := by
    rw [heq, iterate_memsLog]
    simp [initTrainState]
  have hsteps : (train model lossOf args batch overflow boundary (initTrainState i0)).steps
      = n := by
    rw [heq, iterate_steps]
    simp [initTrainState]
  have helog : (evaluate model lossOf batch reduce eval_iters).2.2
      = (List.range eval_iters).map (fun i => memsFrom model batch 0 [] i) := by
    have h := evalLoop_spec model lossOf batch reduce eval_iters 0 [] 0 []
    show (evalLoop model lossOf batch reduce eval_iters 0 [] 0 []).2.2 = _
    simpa using h
  refine ⟨fun b mems => rfl, ⟨?_, ?_, ?_⟩, ⟨?_, ?_, ?_⟩⟩
  · rw [hlog]
    rcases Nat.eq_zero_or_pos n with h0 | h0
    · subst h0
      simp [List.getD]
    · rw [getD_map_range _ _ _ _ h0]
      rfl
  · rw [hlog, hsteps, List.length_map, List.length_range]
  · intro k hk
    rw [hlog] at hk ⊢
    rw [List.length_map, List.length_range] at hk
    rw [getD_map_range _ _ _ _ hk, getD_map_range _ _ _ _ (by omega : k < n),
      memsFrom_succ model batch k 0 []]
    simp [forward_step]
  · rw [helog]
    rcases Nat.eq_zero_or_pos eval_iters with h0 | h0
    · subst h0
      simp [List.getD]
    · rw [getD_map_range _ _ _ _ h0]
      rfl
  · rw [helog, List.length_map, List.length_range]
  · intro k hk
    rw [helog,
      getD_map_range _ _ _ _ hk, getD_map_range _ _ _ _ (by omega : k < eval_iters),
      memsFrom_succ model batch k 0 []]
    simp [forward_step]

theorem C1_witness :
    demoFinal.memsLog.getD 0 [] = []
    ∧ demoFinal.memsLog.getD 1 []
        = (forward_step demoModel demoLoss (demoBatch 0) (demoFinal.memsLog.getD 0 [])).2
    ∧ (evaluate demoModel demoLoss demoBatch (fun q => q) 2).2.2.getD 1 []
        = (forward_step demoModel demoLoss (demoBatch 0)
            ((evaluate demoModel demoLoss demoBatch (fun q => q) 2).2.2.getD 0 [])).2 := by
  have h := C1_mems_threading demoModel demoLoss demoArgs demoBatch demoOverflow demoBoundary
    0 (fun q => q) 2
  refine ⟨h.2.1.1, ?_, ?_⟩
  · exact h.2.1.2.2 0 (by decide)
  · exact h.2.2.2.2 0 (by decide)

end Wudao
